import Mathlib

/-!
Verification development for the FlowPilot task-extraction application.

The frontend sources (App.tsx in its successive variants, the hooks under
frontend/src/hooks, and the type declarations under frontend/src/types) are
embedded shallowly below: React state updates become pure functions on lists
of tasks, the axios call of useTaskExtractor.ts becomes a function of an
explicit network outcome, and JavaScript truthiness is made explicit.

The FastAPI backend (backend/main.py, holding the segmentation, filtering,
normalization, temporal-resolution, classification and clarification
pipeline) is not among the sources of this repository snapshot; the parts of
it that the theorems need are modelled from the specification and are marked
`Modelled from the spec:` in their doc comments.
-/

namespace FlowPilot

/-! ## Data model (frontend/src/types/task.ts, full Task variant) -/

/-- Priority of a task: the TypeScript union type high | medium | low. -/
inductive Priority
  | high
  | medium
  | low
deriving DecidableEq

/-- Category of a task: the TypeScript union type Work | Personal | Meeting. -/
inductive Category
  | Work
  | Personal
  | Meeting
deriving DecidableEq

/-- The Task record of frontend/src/types/task.ts (spec section 3).
An absent optional field of the TypeScript interface is `none`. -/
structure Task where
  id : String
  title : String
  original_text : String
  due_date : Option String
  assignee : Option String
  priority : Priority
  category : Category
  is_clarified : Bool
  is_sarcastic : Bool
deriving DecidableEq

/-- The Clarification record: id of the task, its title, and the question. -/
structure Clarification where
  id : String
  task_title : String
  question : String
deriving DecidableEq

/-- The ExtractionResult bundle of spec section 3. -/
structure ExtractionResult where
  tasks : List Task
  clarifications : List Clarification
deriving DecidableEq

/-! ## JavaScript semantics helpers -/

/-- JavaScript truthiness of an optional string: `undefined`, `null`
and the empty string are falsy. -/
def jsTruthyStr : Option String → Bool
  | none => false
  | some s => !(s == "")

/-- JavaScript `x || d` on a string: the empty string is falsy. -/
def jsOrStr (x d : String) : String := if x == "" then d else x

/-- JavaScript `x || d` on a number: `0` is falsy. -/
def jsOrNat (x d : Nat) : Nat := if x == 0 then d else x

/-! ## Character-list string primitives

The embedding works on explicit character lists throughout, so that every
definition evaluates by plain structural recursion. -/

/-- Whitespace characters. -/
def isSpaceChar (c : Char) : Bool :=
  c == ' ' || c == '\t' || c == '\n' || c == '\r'

/-- Trim surrounding whitespace from a character list. -/
def trimChars (cs : List Char) : List Char :=
  ((cs.dropWhile isSpaceChar).reverse.dropWhile isSpaceChar).reverse

/-- JavaScript `String.prototype.trim`: strip surrounding whitespace. -/
def jsTrim (s : String) : String := String.mk (trimChars s.toList)

/-- Lowercase every character of a string. -/
def lowerStr (s : String) : String := String.mk (s.toList.map Char.toLower)

/-- Split a character list at every occurrence of a separator. -/
def splitChar (sep : Char) : List Char → List (List Char)
  | [] => [[]]
  | c :: rest =>
    if c == sep then [] :: splitChar sep rest
    else
      match splitChar sep rest with
      | [] => [[c]]
      | w :: ws => (c :: w) :: ws

/-- Whether the pattern is the initial run of the character list. -/
def startsWithSeq : List Char → List Char → Bool
  | [], _ => true
  | _ :: _, [] => false
  | p :: ps, c :: cs => p == c && startsWithSeq ps cs

/-- Whether the pattern occurs contiguously inside the character list. -/
def containsSeq (s pat : List Char) : Bool :=
  match s with
  | [] => pat.isEmpty
  | _ :: rest => startsWithSeq pat s || containsSeq rest pat

/-- Substring containment on strings. -/
def containsSub (s pat : String) : Bool := containsSeq s.toList pat.toList

/-- Whether the string starts with the pattern. -/
def startsWithStr (s p : String) : Bool := startsWithSeq p.toList s.toList

/-- Whether the string ends with the pattern. -/
def endsWithStr (s p : String) : Bool :=
  startsWithSeq p.toList.reverse s.toList.reverse

/-- Drop the first characters of a string. -/
def dropStr (s : String) (n : Nat) : String := String.mk (s.toList.drop n)

/-! ## App.tsx task actions -/

/-- `handleMoveTask` (App.tsx): toggles `is_clarified` of the task with the
given id, leaving `due_date` unchanged. -/
def handleMoveTask (id : String) (tasks : List Task) : List Task :=
  tasks.map fun t =>
    if t.id == id then { t with is_clarified := !t.is_clarified } else t

/-- `handleChangeDate` (App.tsx, Day 7): sets `due_date` to the new value and
`is_clarified` to the JavaScript truthiness `!!newDate` of that value. -/
def handleChangeDate (id : String) (newDate : Option String) (tasks : List Task) :
    List Task :=
  tasks.map fun t =>
    if t.id == id then
      { t with due_date := newDate, is_clarified := jsTruthyStr newDate }
    else t

/-- The biconditional of spec section 3: `is_clarified` is true iff
`due_date` is present. -/
def clarifiedInv (t : Task) : Bool := t.is_clarified == t.due_date.isSome

/-! ## App.tsx calendar sync -/

/-- The selection step of `handleCalendarSync` (App.tsx):
`allTasks.filter(t => t.is_clarified && t.due_date)`. -/
def calendarSyncSelection (tasks : List Task) : List Task :=
  tasks.filter fun t => t.is_clarified && jsTruthyStr t.due_date

/-! ## App.tsx clarification re-submission -/

/-- The per-clarification fragment built by `handleClarificationUpdate`
(App.tsx): the template literal appends the found original text (with
JavaScript fallback to the clarification title when the task is absent or
its original text is empty), the word due, the trimmed answer, a period and
a newline. -/
def clarificationFragment (allTasks : List Task) (c : Clarification)
    (answer : String) : String :=
  (match allTasks.find? (fun t => t.id == c.id) with
    | some t => jsOrStr t.original_text c.task_title
    | none => c.task_title) ++ " due " ++ answer ++ ".\n"

/-- The loop of `handleClarificationUpdate`: fold over the indexed
clarifications, accumulating the combined text and the count of answered
questions. An answer is used only when present and non-empty after trim. -/
def clarificationCombined (allTasks : List Task) (clars : List Clarification)
    (answers : Nat → Option String) : String × Nat :=
  clars.enum.foldl
    (fun acc ic =>
      match (answers ic.1).map jsTrim with
      | some a =>
          if a == "" then acc
          else (acc.1 ++ clarificationFragment allTasks ic.2 a, acc.2 + 1)
      | none => acc)
    ("", 0)

/-- `handleClarificationUpdate` (App.tsx): when no question was answered it
returns without extracting; otherwise the combined text is passed to the
extraction entry point `extractTasks`. The returned value is the text
passed to extraction, if any. -/
def handleClarificationUpdate (allTasks : List Task) (clars : List Clarification)
    (answers : Nat → Option String) : Option String :=
  let cc := clarificationCombined allTasks clars answers
  if cc.2 == 0 then none else some cc.1

/-- The fragments of the answered clarifications, in order. -/
def answeredFragments (allTasks : List Task) (clars : List Clarification)
    (answers : Nat → Option String) : List String :=
  clars.enum.filterMap fun ic =>
    match (answers ic.1).map jsTrim with
    | some a =>
        if a == "" then none
        else some (clarificationFragment allTasks ic.2 a)
    | none => none

/-- Concatenation of a list of strings. -/
def concatAll (l : List String) : String := l.foldr (· ++ ·) ""

/-! ## useTaskExtractor.ts -/

/-- The axios request configuration of `extractTasks` in the first variant of
useTaskExtractor.ts: a 30000 ms timeout on the extraction HTTP call. -/
def extractRequestTimeoutMsV1 : Nat := 30000

/-- The axios request configuration of `extractTasks` in the second variant
of useTaskExtractor.ts: likewise a 30000 ms timeout. -/
def extractRequestTimeoutMsV2 : Nat := 30000

/-- The state held by the useTaskExtractor hook. -/
structure ExtractorState where
  tasks : List Task
  loading : Bool
  error : String
deriving DecidableEq

/-- The data carried by a failed axios call: the optional
`response.data.error` field and the error message. -/
structure AxiosFailure where
  responseDataError : Option String
  message : String
deriving DecidableEq

/-- Outcome of the POST to /api/process: either a response whose
`data.tasks` field may be absent, or a failure. -/
inductive AxiosOutcome
  | ok (tasks : Option (List Task))
  | fail (e : AxiosFailure)
deriving DecidableEq

/-- The error-message chain of the first variant of `extractTasks`:
`axiosError.response?.data?.error || axiosError.message || fallback`. -/
def extractErrorMessage (e : AxiosFailure) : String :=
  jsOrStr (e.responseDataError.getD "")
    (jsOrStr e.message "Failed to extract tasks. Try again.")

/-- `extractTasks` of useTaskExtractor.ts (first variant) as a state
transition: empty or whitespace-only text is rejected before any request;
otherwise the task list is cleared, the request is issued, and the outcome
is folded into the state. Returns the new state and the boolean result. -/
def extractTasksRun (st : ExtractorState) (text : String)
    (outcome : AxiosOutcome) : ExtractorState × Bool :=
  if jsTrim text == "" then
    ({ st with error := "Please enter some text to analyze" }, false)
  else
    match outcome with
    | .ok ts => ({ tasks := ts.getD [], loading := false, error := "" }, true)
    | .fail e =>
        ({ tasks := [], loading := false, error := extractErrorMessage e }, false)

/-! ## App.tsx sorting (sortedTasks, Day 6/7) -/

/-- The literal `order = \x7b high: 0, medium: 1, low: 2 \x7d` of the
priority comparator. -/
def priorityOrder : Priority → Nat
  | .high => 0
  | .medium => 1
  | .low => 2

/-- The sort key actually used: `order[a.priority] || 1`, where the
JavaScript `||` replaces the falsy 0 of high by 1. -/
def priorityKey (t : Task) : Nat := jsOrNat (priorityOrder t.priority) 1

/-- The comparator of the priority branch of `sortedTasks`:
`(order[a.priority] || 1) - (order[b.priority] || 1)`. -/
def priorityCompare (a b : Task) : Int :=
  (priorityKey a : Int) - (priorityKey b : Int)

/-- `sortedTasks` under the priority sort: a stable sort (JavaScript
`Array.prototype.sort` is stable) by the comparator. -/
def prioritySorted (l : List Task) : List Task :=
  l.mergeSort fun a b => decide (priorityCompare a b ≤ 0)

/-! ## Modelled backend: segmenter (spec section 4.1)

The FastAPI backend (backend/main.py) is not part of this source snapshot;
the whole local pipeline below is modelled from the specification. -/

/-- Modelled from the spec: the delimiter characters of section 4.1, split
points at parenthesis depth 0. -/
def delimChars : List Char := [',', '+', '.', ';', '\n']

/-- Modelled from the spec: the delimiter words of section 4.1, split points
at parenthesis depth 0 when they occur as standalone tokens. -/
def delimWords : List String := ["and", "then", "also", "or"]

/-- The alphabetic run at the head of the character list (used for the
standalone-word lookahead of the segmenter). -/
def headWord (cs : List Char) : List Char := cs.takeWhile Char.isAlpha

/-- Whether the character list starts with a standalone delimiter word:
its leading alphabetic run is one of `delimWords` and is followed by a
non-alphanumeric character or the end of the input. -/
def isDelimWordAt (cs : List Char) : Bool :=
  let w := headWord cs
  delimWords.contains (String.mk (w.map Char.toLower)) &&
    (match cs.drop w.length with
      | [] => true
      | d :: _ => !(d.isAlpha || d.isDigit))

/-- Modelled from the spec: segment flushing of section 4.1. The buffer is
trimmed of surrounding whitespace; a segment shorter than two characters is
dropped silently. -/
def flushInto (acc : List String) (buf : List Char) : List String :=
  let s := String.mk (trimChars buf)
  if s.length < 2 then acc else acc ++ [s]

/-- Modelled from the spec: the scanning loop of the segmenter
(section 4.1). It tracks open/close parenthesis depth; at depth 0 it splits
on delimiter characters and standalone delimiter words (whose characters
are then consumed through the skip counter); at positive depth every
character, delimiters included, is appended to the current buffer. -/
def segmentCore : List Char → Nat → Nat → List Char → List String → List String
  | [], _, _, buf, acc => flushInto acc buf
  | _ :: rest, skip + 1, depth, buf, acc => segmentCore rest skip depth buf acc
  | c :: rest, 0, depth, buf, acc =>
    if c == '(' then
      segmentCore rest 0 (depth + 1) (buf ++ [c]) acc
    else if c == ')' then
      segmentCore rest 0 (depth - 1) (buf ++ [c]) acc
    else if depth == 0 && delimChars.contains c then
      segmentCore rest 0 0 [] (flushInto acc buf)
    else if depth == 0 && c == ' ' && isDelimWordAt rest then
      segmentCore rest (headWord rest).length 0 [] (flushInto acc buf)
    else
      segmentCore rest 0 depth (buf ++ [c]) acc

/-- Modelled from the spec: the segmenter entry point (section 4.1). -/
def segment (text : String) : List String := segmentCore text.toList 0 0 [] []

/-! ## Modelled backend: actionability and sarcasm filter (spec section 4.2) -/

/-- The lowercased alphanumeric words of a string: every other character is
treated as a separator. -/
def wordsOf (s : String) : List String :=
  ((splitChar ' ' (s.toList.map fun c =>
      if c.isAlpha || c.isDigit then c.toLower else ' ')).map String.mk).filter
    fun w => w != ""

/-- Modelled from the spec: the action-indicating imperative verbs of
section 4.2. -/
def actionVerbs : List String :=
  ["call", "email", "buy", "finish", "submit", "schedule", "send", "pay",
   "review", "clean", "meet", "update"]

/-- Modelled from the spec: sarcasm and hedging templates of section 4.2.
The template written there with a first-person contraction is matched by
its tail phrase, so that apostrophe variants are all caught. -/
def sarcasmPhrases : List String :=
  ["yeah right", "sure, whatever", "do this in 5 minutes"]

/-- Sarcasm verdict: the lowercased segment contains a sarcasm template. -/
def isSarcastic (s : String) : Bool :=
  sarcasmPhrases.any fun p => containsSub (lowerStr s) p

/-- Whether the segment contains an action verb as a standalone word. -/
def hasActionVerb (s : String) : Bool :=
  (wordsOf s).any fun w => actionVerbs.contains w

/-! ## Modelled backend: temporal expressions (spec section 4.4) -/

/-- A recognized relative date expression. -/
inductive DateExpr
  | today
  | tomorrow
  | nextWeekday (w : Nat)
  | thisWeek
deriving DecidableEq

/-- Weekday names, numbered 0 = Monday through 6 = Sunday. -/
def weekdayNames : List (String × Nat) :=
  [("monday", 0), ("tuesday", 1), ("wednesday", 2), ("thursday", 3),
   ("friday", 4), ("saturday", 5), ("sunday", 6)]

/-- Look up a weekday name. -/
def lookupWeekday (w : String) : Option Nat :=
  (weekdayNames.find? fun p => p.1 == w).map Prod.snd

/-- Modelled from the spec: scan the words of a segment for the first
relative day expression of section 4.4. -/
def findDateExpr : List String → Option DateExpr
  | [] => none
  | w :: rest =>
    if w == "today" then some .today
    else if w == "tomorrow" then some .tomorrow
    else if w == "next" then
      match rest with
      | [] => none
      | w2 :: _ =>
        match lookupWeekday w2 with
        | some d => some (.nextWeekday d)
        | none => findDateExpr rest
    else if w == "this" then
      match rest with
      | [] => none
      | w2 :: _ => if w2 == "week" then some .thisWeek else findDateExpr rest
    else findDateExpr rest

/-- Parse a run of decimal digits. -/
def digitsToNat (cs : List Char) : Option Nat :=
  if cs.isEmpty || !(cs.all Char.isDigit) then none
  else some (cs.foldl (fun n c => n * 10 + (c.toNat - 48)) 0)

/-- Parse an hour with optional `:minutes` part, as in `3` or `3:30`. -/
def parseHourMinutes (cs : List Char) : Option (Nat × Nat) :=
  match splitChar ':' cs with
  | [h] => (digitsToNat h).map fun n => (n, 0)
  | [h, m] =>
    match digitsToNat h, digitsToNat m with
    | some hn, some mn => if mn < 60 then some (hn, mn) else none
    | _, _ => none
  | _ => none

/-- Modelled from the spec: parse one clock-time token of section 4.4.
Twelve-hour forms require an am or pm marker; a colon form without a marker
is read as a 24-hour time. -/
def parseTimeToken (t : String) : Option (Nat × Nat) :=
  let cs := t.toList
  if endsWithStr t "am" then
    match parseHourMinutes (cs.take (cs.length - 2)) with
    | some (h, m) => if 1 ≤ h && h ≤ 12 then some (h % 12, m) else none
    | none => none
  else if endsWithStr t "pm" then
    match parseHourMinutes (cs.take (cs.length - 2)) with
    | some (h, m) => if 1 ≤ h && h ≤ 12 then some (h % 12 + 12, m) else none
    | none => none
  else if cs.contains ':' then
    match parseHourMinutes cs with
    | some (h, m) => if h < 24 then some (h, m) else none
    | none => none
  else none

/-- Strip surrounding characters that are neither alphanumeric nor a colon
from a token. -/
def stripPunct (t : String) : String :=
  let keep := fun c : Char => c.isAlpha || c.isDigit || c == ':'
  String.mk ((((t.toList.dropWhile fun c => !keep c).reverse.dropWhile
    fun c => !keep c).reverse))

/-- The whitespace-separated tokens of the lowercased segment, stripped of
surrounding punctuation. -/
def rawTokens (s : String) : List String :=
  (((splitChar ' ' (s.toList.map Char.toLower)).map String.mk).map
    stripPunct).filter fun t => t != ""

/-- The whitespace-separated tokens of the segment with original casing,
stripped of surrounding punctuation. -/
def rawTokensCase (s : String) : List String :=
  (((splitChar ' ' s.toList).map String.mk).map stripPunct).filter
    fun t => t != ""

/-- The first token that parses as an explicit clock time. -/
def findTimeExpr (ts : List String) : Option (Nat × Nat) :=
  match ts with
  | [] => none
  | t :: rest =>
    match parseTimeToken t with
    | some hm => some hm
    | none => findTimeExpr rest

/-- Modelled from the spec: the named time-of-day keywords of section 4.4. -/
def namedTimes : List (String × Nat) :=
  [("morning", 9), ("noon", 12), ("afternoon", 15), ("evening", 18),
   ("night", 21)]

/-- The first named time-of-day keyword among the words. -/
def findNamedTime (ws : List String) : Option Nat :=
  match ws with
  | [] => none
  | w :: rest =>
    match (namedTimes.find? fun p => p.1 == w).map Prod.snd with
    | some h => some h
    | none => findNamedTime rest

/-- The caller-supplied now reference of section 4.4: a calendar date with
its weekday, numbered 0 = Monday through 6 = Sunday. -/
structure DateRef where
  year : Nat
  month : Nat
  day : Nat
  weekday : Nat
deriving DecidableEq

/-- Gregorian leap-year rule. -/
def isLeap (y : Nat) : Bool := (y % 4 == 0 && y % 100 != 0) || y % 400 == 0

/-- Number of days of a month. -/
def daysInMonth (y m : Nat) : Nat :=
  if m == 2 then (if isLeap y then 29 else 28)
  else if m == 4 || m == 6 || m == 9 || m == 11 then 30
  else 31

/-- The calendar day after a date. -/
def nextDay (d : DateRef) : DateRef :=
  let wd := (d.weekday + 1) % 7
  if d.day < daysInMonth d.year d.month then
    { d with day := d.day + 1, weekday := wd }
  else if d.month < 12 then
    { d with month := d.month + 1, day := 1, weekday := wd }
  else
    { year := d.year + 1, month := 1, day := 1, weekday := wd }

/-- Add a number of days to a date. -/
def addDays (d : DateRef) : Nat → DateRef
  | 0 => d
  | n + 1 => addDays (nextDay d) n

/-- Modelled from the spec: resolve a relative date expression against now
(section 4.4). A weekday reference picks the next occurrence strictly after
now; the spec leaves the exact day denoted by a this-week reference open,
and the model resolves it to the date of now. -/
def resolveDate (now : DateRef) : DateExpr → DateRef
  | .today => now
  | .tomorrow => addDays now 1
  | .nextWeekday w =>
    let delta := ((w + 7) - now.weekday) % 7
    addDays now (if delta == 0 then 7 else delta)
  | .thisWeek => now

/-- Two-digit zero padding. -/
def pad2 (n : Nat) : String := if n < 10 then "0" ++ Nat.repr n else Nat.repr n

/-- Render a date as YYYY-MM-DD. -/
def renderDate (d : DateRef) : String :=
  Nat.repr d.year ++ "-" ++ pad2 d.month ++ "-" ++ pad2 d.day

/-- Modelled from the spec: the resolved date part of a segment. An
explicit clock time or named time without a date expression binds to the
date of now (section 4.4: same-day resolution is inclusive of today). -/
def resolvedDatePart (now : DateRef) (s : String) : Option DateRef :=
  match findDateExpr (wordsOf s) with
  | some de => some (resolveDate now de)
  | none =>
    match findTimeExpr (rawTokens s) with
    | some _ => some now
    | none =>
      match findNamedTime (wordsOf s) with
      | some _ => some now
      | none => none

/-- Modelled from the spec: the resolved time-of-day part of a segment.
Named keywords are used only when no explicit clock time is present. -/
def resolvedTimePart (s : String) : Option (Nat × Nat) :=
  match findTimeExpr (rawTokens s) with
  | some hm => some hm
  | none =>
    match findNamedTime (wordsOf s) with
    | some h => some (h, 0)
    | none => none

/-- Modelled from the spec: the temporal resolver of section 4.4. A
date-only resolution renders as YYYY-MM-DD, a date with time as a combined
date-time value; no recognized expression gives an absent due date. -/
def resolveTemporal (now : DateRef) (s : String) : Option String :=
  match resolvedDatePart now s, resolvedTimePart s with
  | none, _ => none
  | some d, none => some (renderDate d)
  | some d, some (h, m) =>
    some (renderDate d ++ "T" ++ pad2 h ++ ":" ++ pad2 m ++ ":00")

/-! ## Modelled backend: classifier (spec section 4.5) -/

/-- Modelled from the spec: urgency markers, mapped to high priority. -/
def urgencyWords : List String := ["urgent", "asap", "immediately", "critical"]

/-- Modelled from the spec: hedging markers, mapped to low priority. -/
def hedgingWords : List String := ["maybe", "later", "sometime", "eventually"]

/-- Same calendar date. -/
def sameDate (a b : DateRef) : Bool :=
  a.year == b.year && a.month == b.month && a.day == b.day

/-- Modelled from the spec: priority classification of section 4.5, first
match wins: urgency markers give high, a resolved due date on the same or
the next day gives medium, hedging markers give low, default medium. -/
def classifyPriority (now : DateRef) (s : String) : Priority :=
  if (wordsOf s).any (fun w => urgencyWords.contains w) then .high
  else
    match resolvedDatePart now s with
    | some d =>
      if sameDate d now || sameDate d (addDays now 1) then .medium
      else if (wordsOf s).any (fun w => hedgingWords.contains w) then .low
      else .medium
    | none =>
      if (wordsOf s).any (fun w => hedgingWords.contains w) then .low
      else .medium

/-- Modelled from the spec: the category keyword table of section 4.5,
scanned in the fixed order Meeting, Work, Personal. -/
def meetingWords : List String := ["call", "meeting", "sync"]

/-- Work category keywords. -/
def workWords : List String := ["boss", "report", "client", "project"]

/-- Personal category keywords. -/
def personalWords : List String := ["gym", "groceries", "home"]

/-- Modelled from the spec: category classification, first matching
category wins, default Personal. -/
def classifyCategory (s : String) : Category :=
  let ws := wordsOf s
  if ws.any (fun w => meetingWords.contains w) then .Meeting
  else if ws.any (fun w => workWords.contains w) then .Work
  else if ws.any (fun w => personalWords.contains w) then .Personal
  else .Personal

/-- The token following the first tell or remind trigger, when it starts
with an upper-case letter. -/
def findTellRemind : List String → Option String
  | [] => none
  | w :: rest =>
    if lowerStr w == "tell" || lowerStr w == "remind" then
      match rest with
      | [] => none
      | n :: _ =>
        match n.toList with
        | c :: _ => if c.isUpper then some n else findTellRemind rest
        | [] => findTellRemind rest
    else findTellRemind rest

/-- The token following the first to, when it starts with an upper-case
letter (used after an assign trigger). -/
def findAfterTo : List String → Option String
  | [] => none
  | w :: rest =>
    if lowerStr w == "to" then
      match rest with
      | [] => none
      | n :: _ =>
        match n.toList with
        | c :: _ => if c.isUpper then some n else findAfterTo rest
        | [] => findAfterTo rest
    else findAfterTo rest

/-- Modelled from the spec: assignee extraction of section 4.5 from the
delegation triggers assign-to, tell and remind. -/
def findAssignee (s : String) : Option String :=
  let ts := rawTokensCase s
  match findTellRemind ts with
  | some n => some n
  | none =>
    if ts.any (fun w => lowerStr w == "assign") then findAfterTo ts else none

/-- Delegation pattern presence, one of the actionability signals of
section 4.2. -/
def hasDelegation (s : String) : Bool := (findAssignee s).isSome

/-- Temporal pattern presence, the other actionability signal of
section 4.2. -/
def hasTemporalExpr (s : String) : Bool :=
  (findDateExpr (wordsOf s)).isSome || (findTimeExpr (rawTokens s)).isSome ||
    (findNamedTime (wordsOf s)).isSome

/-- Modelled from the spec: the actionability verdict of section 4.2.
Sarcasm detection takes priority over verb detection; otherwise a segment
is actionable when it contains an action verb or a delegation or temporal
pattern. -/
def isActionable (s : String) : Bool :=
  !isSarcastic s && (hasActionVerb s || hasDelegation s || hasTemporalExpr s)

/-! ## Modelled backend: normalizer (spec section 4.3) -/

/-- Modelled from the spec: the leading first-person framing phrases
stripped by the normalizer. -/
def firstPersonPhrases : List String :=
  ["i want to ", "i need to ", "i have to ", "i\x27m going to ", "let me "]

/-- Strip a leading first-person phrase, comparing case-insensitively. -/
def stripFirstPerson (s : String) : String :=
  match firstPersonPhrases.find? (fun p => startsWithStr (lowerStr s) p) with
  | some p => dropStr s p.length
  | none => s

/-- Capitalize the first character. -/
def capitalizeFirst (s : String) : String :=
  match s.toList with
  | [] => ""
  | c :: rest => String.mk (c.toUpper :: rest)

/-- Trailing punctuation replaced by the terminal period. -/
def trailingPunct : List Char := ['.', ',', ';', ':', '!', '?']

/-- Ensure a single terminal period: drop trailing punctuation and
whitespace, then append one period. -/
def terminalPeriod (s : String) : String :=
  String.mk ((s.toList.reverse.dropWhile fun c =>
    trailingPunct.contains c || isSpaceChar c).reverse) ++ "."

/-- Collapse runs of internal whitespace to single spaces. -/
def collapseWS : Bool → List Char → List Char
  | _, [] => []
  | prev, c :: rest =>
    if isSpaceChar c then
      if prev then collapseWS true rest else ' ' :: collapseWS true rest
    else c :: collapseWS false rest

/-- Modelled from the spec: the normalizer of section 4.3, steps in order:
strip first-person framing, capitalize, terminal period, collapse
whitespace. -/
def normalize (s : String) : String :=
  String.mk (collapseWS false
    (terminalPeriod (capitalizeFirst (stripFirstPerson s))).toList)

/-! ## Modelled backend: task assembly and pipeline (spec sections 3, 4.6) -/

/-- Modelled from the spec: task ids are opaque unique identifiers
generated at creation (random hexadecimal in the implementation); the model
generates them injectively from the index of the surviving segment. -/
def taskIdFor (i : Nat) : String := "task-" ++ String.mk (List.replicate i 'x')

/-- Modelled from the spec: assembly of one Task from a surviving segment
(sections 3 and 4.3 through 4.5). -/
def mkTask (now : DateRef) (i : Nat) (seg : String) : Task :=
  let due := resolveTemporal now seg
  { id := taskIdFor i
    title := normalize seg
    original_text := seg
    due_date := due
    assignee := findAssignee seg
    priority := classifyPriority now seg
    category := classifyCategory seg
    is_clarified := due.isSome
    is_sarcastic := false }

/-- The fixed clarification question of section 4.6. -/
def clarificationQuestion : String := "When is this due?"

/-- Modelled from the spec: the clarification generator of section 4.6, one
Clarification per task lacking a due date, in task order. -/
def genClarifications (tasks : List Task) : List Clarification :=
  (tasks.filter fun t => !t.is_clarified).map fun t =>
    ⟨t.id, t.title, clarificationQuestion⟩

/-- Modelled from the spec: the local deterministic pipeline of sections
4.1 through 4.6: segment, filter, assemble tasks, generate clarifications. -/
def localPipeline (now : DateRef) (text : String) : ExtractionResult :=
  let tasks := ((segment text).filter isActionable).enum.map
    fun is => mkTask now is.1 is.2
  ⟨tasks, genClarifications tasks⟩

/-- The error kinds surfaced to the caller (spec section 7). -/
inductive ExtractError
  | emptyText
  | inputTooShort
  | inputTooLong
deriving DecidableEq

/-- Modelled from the spec: the backend entry point behind /api/process
(backend/main.py is not among the sources). Length outside the bounds 3 to
10000 is rejected with a distinct error before segmentation; otherwise the
pipeline runs (sections 3, 6 and 7). -/
def processEndpoint (now : DateRef) (text : String) :
    Except ExtractError ExtractionResult :=
  if text.length < 3 then .error .inputTooShort
  else if text.length > 10000 then .error .inputTooLong
  else .ok (localPipeline now text)

/-- The composed extraction entry point: the client-side guard of
`extractTasks` (useTaskExtractor.ts) rejects empty or whitespace-only text
before any request; every other text reaches the backend endpoint. -/
def extractEntry (now : DateRef) (text : String) :
    Except ExtractError ExtractionResult :=
  if jsTrim text == "" then .error .emptyText else processEndpoint now text

/-- Well-formedness of an ExtractionResult (spec section 3): every task
carries the clarified biconditional and is non-sarcastic, and every
clarification names exactly one unclarified task of the same result. -/
def wellFormedResult (r : ExtractionResult) : Prop :=
  (∀ t ∈ r.tasks, t.is_clarified = t.due_date.isSome ∧ t.is_sarcastic = false) ∧
  (∀ c ∈ r.clarifications,
    (r.tasks.filter fun t => (t.id == c.id) && !t.is_clarified).length = 1)

/-! ## Concrete values used by counterexamples and witnesses -/

/-- A concrete reference date: Sunday, 2026-02-22. -/
def now0 : DateRef := { year := 2026, month := 2, day := 22, weekday := 6 }

/-- A concrete clarified task with a present due date. -/
def c1Task : Task :=
  { id := "t1", title := "Email boss.", original_text := "email boss",
    due_date := some "2026-03-01", assignee := none, priority := .medium,
    category := .Work, is_clarified := true, is_sarcastic := false }

/-- A concrete task marked clarified without a due date (the state
`handleMoveTask` produces from a task of the review column). -/
def c2Task : Task :=
  { id := "t2", title := "Call Sarah.", original_text := "call Sarah",
    due_date := none, assignee := none, priority := .medium,
    category := .Meeting, is_clarified := true, is_sarcastic := false }

/-- A concrete unclarified task awaiting a clarification answer. -/
def c3Task : Task :=
  { id := "c1", title := "Call Sarah.", original_text := "call Sarah",
    due_date := none, assignee := none, priority := .medium,
    category := .Meeting, is_clarified := false, is_sarcastic := false }

/-- The clarification attached to `c3Task`. -/
def c3Clar : Clarification :=
  { id := "c1", task_title := "Call Sarah.", question := "When is this due?" }

/-- A single answer, for the first clarification. -/
def c3Answers : Nat → Option String :=
  fun i => if i == 0 then some "tomorrow" else none

/-- A concrete previously extracted task held by the hook state. -/
def c10Task : Task :=
  { id := "t9", title := "Pay rent.", original_text := "pay rent",
    due_date := none, assignee := none, priority := .medium,
    category := .Personal, is_clarified := false, is_sarcastic := false }

/-! ## Shared helper lemmas -/

/-- Truthiness of an optional string, unfolded. -/
theorem jsTruthyStr_eq_true (o : Option String) :
    jsTruthyStr o = true ↔ o ≠ none ∧ o ≠ some "" := by
  cases o with
  | none => simp [jsTruthyStr]
  | some s =>
    simp only [jsTruthyStr, Bool.not_eq_eq_eq_not, Bool.not_true,
      beq_eq_false_iff_ne, ne_eq, Option.some.injEq]
    constructor
    · intro h; exact ⟨fun hc => Option.noConfusion hc, h⟩
    · intro h; exact h.2

/-- The JavaScript string-or chain is never empty when the default is not. -/
theorem jsOrStr_ne_empty (x d : String) (hd : d ≠ "") : jsOrStr x d ≠ "" := by
  unfold jsOrStr
  split
  · exact hd
  · next h => exact fun hx => h (by simp [hx])

/-! ## Claim C1 -/

/-- Claim C1, counterexample: the task `c1Task` satisfies the biconditional
(is_clarified true, due_date present), yet after `handleMoveTask` on its id
the biconditional fails: is_clarified is toggled to false while due_date
stays present. So handleMoveTask does not preserve the biconditional. -/
theorem c1_move_breaks_biconditional :
    clarifiedInv c1Task = true ∧
    (handleMoveTask "t1" [c1Task]).all clarifiedInv = false := by decide

/-- Claim C1, amended: extraction output satisfies the biconditional
between is_clarified and due_date presence, and handleChangeDate preserves
it on every task list already satisfying it, provided the new date is not
the empty string; handleMoveTask, however, toggles is_clarified without
touching due_date and so does not preserve it. -/
theorem c1_clarified_biconditional (now : DateRef) (text : String)
    (tasks : List Task) (id : String) (nd : Option String)
    (hinv : ∀ t ∈ tasks, clarifiedInv t = true) (hnd : nd ≠ some "") :
    (∀ t ∈ (localPipeline now text).tasks, clarifiedInv t = true) ∧
    (∀ t ∈ handleChangeDate id nd tasks, clarifiedInv t = true) := by
  constructor
  · intro t ht
    simp only [localPipeline, List.mem_map] at ht
    obtain ⟨is, _, rfl⟩ := ht
    simp [clarifiedInv, mkTask]
  · intro t ht
    simp only [handleChangeDate, List.mem_map] at ht
    obtain ⟨u, hu, rfl⟩ := ht
    by_cases hid : (u.id == id) = true
    · simp only [hid, if_true]
      cases nd with
      | none => simp [clarifiedInv, jsTruthyStr]
      | some s =>
        have hs : s ≠ "" := fun h => hnd (by simp [h])
        simp [clarifiedInv, jsTruthyStr, hs]
    · simp only [hid]
      simpa using hinv u hu

/-- Claim C1, witness for the amended theorem at concrete inputs. -/
theorem c1_clarified_biconditional_witness :
    (∀ t ∈ (localPipeline now0 "Call Sarah").tasks, clarifiedInv t = true) ∧
    (∀ t ∈ handleChangeDate "t1" (some "2026-03-05") [c1Task],
      clarifiedInv t = true) :=
  c1_clarified_biconditional now0 "Call Sarah" [c1Task] "t1"
    (some "2026-03-05") (by decide) (by decide)

/-! ## Claim C2 -/

/-- Claim C2, counterexample: `c2Task` has is_clarified true, so the claim
says handleCalendarSync selects it; but its due_date is null and the
selection filter `t.is_clarified && t.due_date` drops it: the selected set
is not the set of tasks with is_clarified true. -/
theorem c2_sync_selection_counterexample :
    c2Task.is_clarified = true ∧
    calendarSyncSelection [c2Task] = [] ∧
    calendarSyncSelection [c2Task] ≠
      [c2Task].filter (fun t => t.is_clarified) := by decide

/-- Claim C2, amended: the set of tasks handleCalendarSync attempts to push
is exactly the set of tasks with is_clarified true and a truthy (non-null,
non-empty) due_date. -/
theorem c2_sync_selection (tasks : List Task) (t : Task) :
    t ∈ calendarSyncSelection tasks ↔
      t ∈ tasks ∧ t.is_clarified = true ∧
        t.due_date ≠ none ∧ t.due_date ≠ some "" := by
  simp only [calendarSyncSelection, List.mem_filter, Bool.and_eq_true,
    jsTruthyStr_eq_true]

/-! ## Claim C3 -/

/-- The fold of `clarificationCombined` accumulates exactly the
concatenation of the fragments of the answered clarifications. -/
theorem combined_foldl_eq (allTasks : List Task) (answers : Nat → Option String)
    (l : List (Nat × Clarification)) (s0 : String) (n0 : Nat) :
    (l.foldl
      (fun acc ic =>
        match (answers ic.1).map jsTrim with
        | some a =>
            if a == "" then acc
            else (acc.1 ++ clarificationFragment allTasks ic.2 a, acc.2 + 1)
        | none => acc)
      (s0, n0)).1 =
      s0 ++ concatAll (l.filterMap fun ic =>
        match (answers ic.1).map jsTrim with
        | some a =>
            if a == "" then none
            else some (clarificationFragment allTasks ic.2 a)
        | none => none) := by
  induction l generalizing s0 n0 with
  | nil => simp [concatAll]
  | cons ic rest ih =>
    cases ha : answers ic.1 with
    | none => simpa [ha] using ih s0 n0
    | some a =>
      rcases eq_or_ne (jsTrim a) "" with hz | hz
      · simpa [ha, hz] using ih s0 n0
      · have hzf : (jsTrim a == "") = false := by simpa using hz
        simp only [List.foldl_cons, List.filterMap_cons, ha, Option.map_some',
          hzf, Bool.false_eq_true, if_false]
        rw [ih]
        simp [concatAll, String.append_assoc]

/-- Claim C3, counterexample: with one answered clarification the text
passed to extraction is the original text, the word due, the answer, a
period and a trailing newline; it differs from the concatenation the claim
states, which lacks the newline. -/
theorem c3_resubmission_counterexample :
    handleClarificationUpdate [c3Task] [c3Clar] c3Answers =
      some "call Sarah due tomorrow.\n" ∧
    ("call Sarah due tomorrow.\n" : String) ≠
      "call Sarah" ++ " due " ++ "tomorrow" ++ "." := by decide

/-- Claim C3, amended: each answered clarification contributes the fragment
original text, the word due, the trimmed answer, a period and a newline
(falling back to the clarification title when the task is missing or its
original text is empty); the fragments of all answered clarifications are
concatenated into one input, and when at least one question was answered
that combined input is passed once to the extraction entry point. -/
theorem c3_resubmission_shape (allTasks : List Task)
    (clars : List Clarification) (answers : Nat → Option String)
    (c : Clarification) (a : String) (t : Task)
    (hfind : allTasks.find? (fun u => u.id == c.id) = some t)
    (horig : t.original_text ≠ "") :
    clarificationFragment allTasks c a =
      t.original_text ++ " due " ++ a ++ ".\n" ∧
    (clarificationCombined allTasks clars answers).1 =
      concatAll (answeredFragments allTasks clars answers) ∧
    ((clarificationCombined allTasks clars answers).2 ≠ 0 →
      handleClarificationUpdate allTasks clars answers =
        some (clarificationCombined allTasks clars answers).1) := by
  refine ⟨?_, ?_, ?_⟩
  · unfold clarificationFragment
    rw [hfind]
    have hb : (t.original_text == "") = false := by simpa using horig
    simp [jsOrStr, hb]
  · unfold clarificationCombined answeredFragments
    simpa using combined_foldl_eq allTasks answers clars.enum "" 0
  · intro h
    have hb : ((clarificationCombined allTasks clars answers).2 == 0) = false := by
      simpa using h
    simp [handleClarificationUpdate, hb]

/-- Claim C3, witness for the amended theorem at concrete inputs. -/
theorem c3_resubmission_shape_witness :
    clarificationFragment [c3Task] c3Clar "tomorrow" =
      c3Task.original_text ++ " due " ++ "tomorrow" ++ ".\n" ∧
    (clarificationCombined [c3Task] [c3Clar] c3Answers).1 =
      concatAll (answeredFragments [c3Task] [c3Clar] c3Answers) ∧
    ((clarificationCombined [c3Task] [c3Clar] c3Answers).2 ≠ 0 →
      handleClarificationUpdate [c3Task] [c3Clar] c3Answers =
        some (clarificationCombined [c3Task] [c3Clar] c3Answers).1) :=
  c3_resubmission_shape [c3Task] [c3Clar] c3Answers c3Clar "tomorrow" c3Task
    (by decide) (by decide)

/-! ## Claim C8 -/

/-- Claim C8: both variants of `extractTasks` in useTaskExtractor.ts issue
the extraction HTTP call with an explicit 30000 ms timeout, within the 30
second bound of the spec. -/
theorem c8_extract_timeout_bounded :
    extractRequestTimeoutMsV1 = 30000 ∧ extractRequestTimeoutMsV2 = 30000 ∧
    extractRequestTimeoutMsV1 ≤ 30 * 1000 ∧
    extractRequestTimeoutMsV2 ≤ 30 * 1000 := by decide

/-! ## Claim C4 -/

/-- Claim C4: every text whose length lies outside the bounds 3 to 10000 is
rejected by the extraction entry point with a distinct error before any
segmentation (the error branches of the entry point never run the
pipeline), and no in-bounds text is rejected with a length-bound error. -/
theorem c4_length_bounds (now : DateRef) (text : String) :
    ((text.length < 3 ∨ text.length > 10000) →
      ∃ e, extractEntry now text = .error e) ∧
    (3 ≤ text.length → text.length ≤ 10000 →
      extractEntry now text ≠ .error .inputTooShort ∧
      extractEntry now text ≠ .error .inputTooLong) := by
  constructor
  · intro h
    by_cases h0 : (jsTrim text == "") = true
    · exact ⟨.emptyText, by simp [extractEntry, h0]⟩
    · rcases h with h | h
      · refine ⟨.inputTooShort, ?_⟩
        simp [extractEntry, processEndpoint, h0, h]
      · refine ⟨.inputTooLong, ?_⟩
        have h3 : ¬ text.length < 3 := by omega
        simp [extractEntry, processEndpoint, h0, h3, h]
  · intro h3 h4
    by_cases h0 : (jsTrim text == "") = true
    · constructor <;> simp [extractEntry, h0]
    · have hl : ¬ text.length < 3 := by omega
      have hh : ¬ text.length > 10000 := by omega
      constructor <;> simp [extractEntry, processEndpoint, h0, hl, hh]

/-! ## Claim C9 -/

/-- Claim C9: under the priority sort, high and medium receive the same
sort key (the JavaScript or-default turns the falsy key 0 of high into 1),
so in the sorted output every low task comes after all other tasks, and the
tasks that are not low keep exactly their pre-sort relative order instead
of high preceding medium. -/
theorem c9_priority_sort_behavior (l : List Task) (t : Task) :
    priorityKey { t with priority := .high } =
      priorityKey { t with priority := .medium } ∧
    (prioritySorted l).Pairwise
      (fun a b => a.priority = Priority.low → b.priority = Priority.low) ∧
    (prioritySorted l).filter (fun u => u.priority != Priority.low) =
      l.filter (fun u => u.priority != Priority.low) := by
  have hkey : ∀ u : Task, u.priority ≠ .low → priorityKey u = 1 := by
    intro u hu
    cases hp : u.priority <;>
      simp_all [priorityKey, priorityOrder, jsOrNat]
  have hkeylow : ∀ u : Task, u.priority = .low → priorityKey u = 2 := by
    intro u hu
    simp [priorityKey, priorityOrder, jsOrNat, hu]
  have hle_iff : ∀ a b : Task,
      ((fun a b : Task => decide (priorityCompare a b ≤ 0)) a b = true) ↔
        priorityKey a ≤ priorityKey b := by
    intro a b
    rw [decide_eq_true_eq]
    unfold priorityCompare
    exact sub_nonpos.trans Nat.cast_le
  have htrans : ∀ a b c : Task,
      (fun a b : Task => decide (priorityCompare a b ≤ 0)) a b = true →
      (fun a b : Task => decide (priorityCompare a b ≤ 0)) b c = true →
      (fun a b : Task => decide (priorityCompare a b ≤ 0)) a c = true := by
    intro a b c hab hbc
    exact (hle_iff a c).mpr (le_trans ((hle_iff a b).mp hab) ((hle_iff b c).mp hbc))
  have htotal : ∀ a b : Task,
      ((fun a b : Task => decide (priorityCompare a b ≤ 0)) a b ||
       (fun a b : Task => decide (priorityCompare a b ≤ 0)) b a) = true := by
    intro a b
    rcases Nat.le_total (priorityKey a) (priorityKey b) with h | h
    · rw [Bool.or_eq_true]
      exact Or.inl ((hle_iff a b).mpr h)
    · rw [Bool.or_eq_true]
      exact Or.inr ((hle_iff b a).mpr h)
  refine ⟨by simp [priorityKey, priorityOrder, jsOrNat], ?_, ?_⟩
  · have hs := List.sorted_mergeSort htrans htotal l
    refine List.Pairwise.imp ?_ hs
    intro a b hab hla
    by_contra hlb
    have h2 : priorityKey a ≤ priorityKey b := (hle_iff a b).mp hab
    rw [hkeylow a hla, hkey b hlb] at h2
    omega
  · have hmemp : ∀ u ∈ l.filter (fun u => u.priority != Priority.low),
        u.priority ≠ .low := by
      intro u hu
      have := (List.mem_filter.mp hu).2
      simpa using this
    have hpair : (l.filter (fun u => u.priority != Priority.low)).Pairwise
        (fun a b => (fun a b : Task => decide (priorityCompare a b ≤ 0)) a b = true) := by
      refine List.pairwise_of_forall_mem_list ?_
      intro a ha b hb
      refine (hle_iff a b).mpr ?_
      rw [hkey a (hmemp a ha), hkey b (hmemp b hb)]
    have hsub : (l.filter (fun u => u.priority != Priority.low)).Sublist
        (prioritySorted l) :=
      List.sublist_mergeSort htrans htotal hpair (List.filter_sublist l)
    have hsubf := hsub.filter (fun u => u.priority != Priority.low)
    rw [List.filter_filter] at hsubf
    have hff : (l.filter fun u =>
        (u.priority != Priority.low) && (u.priority != Priority.low)) =
        l.filter (fun u => u.priority != Priority.low) := by
      apply List.filter_congr
      intro u _
      cases h : (u.priority != Priority.low) <;> simp [h]
    rw [hff] at hsubf
    have hperm : (prioritySorted l).Perm l := List.mergeSort_perm l _
    have hlen : ((prioritySorted l).filter
        (fun u => u.priority != Priority.low)).length =
        (l.filter (fun u => u.priority != Priority.low)).length :=
      (hperm.filter _).length_eq
    exact (hsubf.eq_of_length hlen.symm).symm

/-! ## Pipeline lemmas for claims C5, C6, C7 -/

/-- A task assembled by the pipeline carries the clarified biconditional. -/
theorem mkTask_is_clarified (now : DateRef) (i : Nat) (seg : String) :
    (mkTask now i seg).is_clarified = ((mkTask now i seg).due_date).isSome := rfl

/-- The id of an assembled task is determined by its index. -/
theorem mkTask_id (now : DateRef) (i : Nat) (seg : String) :
    (mkTask now i seg).id = taskIdFor i := rfl

/-- The generated id has length five plus the index. -/
theorem taskIdFor_length (i : Nat) : (taskIdFor i).length = 5 + i := by
  unfold taskIdFor
  rw [String.length_append]
  have h1 : ("task-" : String).length = 5 := rfl
  have h2 : (String.mk (List.replicate i 'x')).length = i := by
    show (List.replicate i 'x').length = i
    exact List.length_replicate i 'x'
  rw [h1, h2]

/-- Distinct indices give distinct ids. -/
theorem taskIdFor_injective : Function.Injective taskIdFor := by
  intro i j h
  have hl := congrArg String.length h
  rw [taskIdFor_length, taskIdFor_length] at hl
  omega

/-- The ids of a pipeline result are pairwise distinct. -/
theorem localPipeline_ids_nodup (now : DateRef) (text : String) :
    (((localPipeline now text).tasks).map Task.id).Nodup := by
  show ((((segment text).filter isActionable).enum.map
    (fun is => mkTask now is.1 is.2)).map Task.id).Nodup
  rw [List.map_map]
  have hc : (Task.id ∘ fun is : Nat × String => mkTask now is.1 is.2) =
      (taskIdFor ∘ Prod.fst) := rfl
  rw [hc, ← List.map_map, List.enum_map_fst]
  exact List.Nodup.map taskIdFor_injective (List.nodup_range _)

/-- Every task of a pipeline result satisfies the clarified biconditional
and is not sarcastic. -/
theorem localPipeline_task_inv (now : DateRef) (text : String) :
    ∀ t ∈ (localPipeline now text).tasks,
      t.is_clarified = t.due_date.isSome ∧ t.is_sarcastic = false := by
  intro t ht
  have ht2 : t ∈ ((segment text).filter isActionable).enum.map
      (fun is => mkTask now is.1 is.2) := ht
  simp only [List.mem_map] at ht2
  obtain ⟨is, _, rfl⟩ := ht2
  exact ⟨rfl, rfl⟩

/-- The clarifications of a pipeline result are generated from its tasks. -/
theorem localPipeline_clarifications (now : DateRef) (text : String) :
    (localPipeline now text).clarifications =
      genClarifications (localPipeline now text).tasks := rfl

/-- Counting tasks matching an id in a list with pairwise-distinct ids:
there is exactly one match when the named task satisfies the extra
predicate, none otherwise. -/
theorem filter_count_of_nodup (t : Task) (p : Task → Bool) :
    ∀ l : List Task, ((l.map Task.id).Nodup) → t ∈ l →
      (l.filter fun u => (u.id == t.id) && p u).length =
        if p t then 1 else 0 := by
  intro l
  induction l with
  | nil => intro _ ht; cases ht
  | cons a l ih =>
    intro hn ht
    rw [List.map_cons, List.nodup_cons] at hn
    obtain ⟨hna, hnl⟩ := hn
    rcases List.mem_cons.mp ht with rfl | hmem
    · have htail : (l.filter fun u => (u.id == t.id) && p u) = [] := by
        rw [List.filter_eq_nil_iff]
        intro u hu hc
        rw [Bool.and_eq_true, beq_iff_eq] at hc
        exact hna (hc.1 ▸ List.mem_map_of_mem Task.id hu)
      rw [List.filter_cons]
      cases hp : p t <;> simp [hp, htail]
    · have hne : (a.id == t.id) = false := by
        refine beq_eq_false_iff_ne.mpr ?_
        intro he
        exact hna (he ▸ List.mem_map_of_mem Task.id hmem)
      rw [List.filter_cons]
      simp only [hne, Bool.false_and, Bool.false_eq_true, if_false]
      exact ih hnl hmem

/-! ## Claim C5 -/

/-- Claim C5: for every text of length within the bounds 3 to 10000 the
endpoint runs the local pipeline and returns its result, and that result is
a well-formed ExtractionResult: the pipeline is total on its valid domain. -/
theorem c5_pipeline_total_wellformed (now : DateRef) (text : String)
    (h3 : 3 ≤ text.length) (h4 : text.length ≤ 10000) :
    processEndpoint now text = .ok (localPipeline now text) ∧
    wellFormedResult (localPipeline now text) := by
  constructor
  · have hl : ¬ text.length < 3 := by omega
    have hh : ¬ text.length > 10000 := by omega
    simp [processEndpoint, hl, hh]
  · constructor
    · exact localPipeline_task_inv now text
    · intro c hc
      rw [localPipeline_clarifications] at hc
      unfold genClarifications at hc
      simp only [List.mem_map, List.mem_filter] at hc
      obtain ⟨t0, ⟨ht0, hcl⟩, rfl⟩ := hc
      have := filter_count_of_nodup t0 (fun u => !u.is_clarified)
        (localPipeline now text).tasks (localPipeline_ids_nodup now text) ht0
      simpa [hcl] using this

/-- Claim C5, witness at a concrete in-bounds input. -/
theorem c5_pipeline_total_wellformed_witness :
    processEndpoint now0 "Call Sarah" = .ok (localPipeline now0 "Call Sarah") ∧
    wellFormedResult (localPipeline now0 "Call Sarah") :=
  c5_pipeline_total_wellformed now0 "Call Sarah" (by decide) (by decide)

/-! ## Claim C6 -/

/-- Claim C6: in every pipeline result, a task without a due date has
exactly one clarification naming its id, a task with a due date has none,
and the clarifications appear in the same order as their tasks. -/
theorem c6_clarification_completeness (now : DateRef) (text : String) :
    (∀ t ∈ (localPipeline now text).tasks, t.due_date = none →
      ((localPipeline now text).clarifications.filter
        fun c => c.id == t.id).length = 1) ∧
    (∀ t ∈ (localPipeline now text).tasks, t.due_date ≠ none →
      ((localPipeline now text).clarifications.filter
        fun c => c.id == t.id).length = 0) ∧
    (localPipeline now text).clarifications.map Clarification.id =
      ((localPipeline now text).tasks.filter
        fun t => !t.is_clarified).map Task.id := by
  have hcount : ∀ t ∈ (localPipeline now text).tasks,
      ((localPipeline now text).clarifications.filter
        fun c => c.id == t.id).length =
        if !t.is_clarified then 1 else 0 := by
    intro t ht
    rw [localPipeline_clarifications]
    unfold genClarifications
    rw [List.filter_map]
    have hp : ((fun c : Clarification => c.id == t.id) ∘
        fun t0 : Task => (⟨t0.id, t0.title, clarificationQuestion⟩ : Clarification)) =
        fun u : Task => u.id == t.id := rfl
    rw [hp, List.length_map, List.filter_filter]
    exact filter_count_of_nodup t (fun u => !u.is_clarified)
      (localPipeline now text).tasks (localPipeline_ids_nodup now text) ht
  refine ⟨?_, ?_, ?_⟩
  · intro t ht hd
    have hinv := (localPipeline_task_inv now text t ht).1
    rw [hcount t ht]
    rw [hd] at hinv
    simp [hinv]
  · intro t ht hd
    have hinv := (localPipeline_task_inv now text t ht).1
    rw [hcount t ht]
    have : t.due_date.isSome = true := Option.isSome_iff_ne_none.mpr hd
    rw [this] at hinv
    simp [hinv]
  · rw [localPipeline_clarifications]
    unfold genClarifications
    rw [List.map_map]
    rfl

/-! ## Claim C7 -/

/-- Claim C7: while parenthesis depth is positive the segmenter takes no
split point: every character, delimiter or not, is appended to the current
buffer with only the depth updated; consequently an unterminated open
parenthesis protects all remaining text into a single flush, and the
parenthesized grocery example yields exactly one task. -/
theorem c7_paren_protection :
    (∀ (c : Char) (rest : List Char) (depth : Nat) (buf : List Char)
        (acc : List String), depth ≠ 0 →
      segmentCore (c :: rest) 0 depth buf acc =
        segmentCore rest 0
          (if c == '(' then depth + 1
           else if c == ')' then depth - 1 else depth)
          (buf ++ [c]) acc) ∧
    (∀ (cs : List Char) (depth : Nat) (buf : List Char) (acc : List String),
      depth ≠ 0 → (∀ c ∈ cs, c ≠ ')') →
      segmentCore cs 0 depth buf acc = flushInto acc (buf ++ cs)) ∧
    (localPipeline now0 "Buy groceries (milk, eggs, bread)").tasks.length = 1 := by
  have hstep : ∀ (c : Char) (rest : List Char) (depth : Nat) (buf : List Char)
      (acc : List String), depth ≠ 0 →
      segmentCore (c :: rest) 0 depth buf acc =
        segmentCore rest 0
          (if c == '(' then depth + 1
           else if c == ')' then depth - 1 else depth)
          (buf ++ [c]) acc := by
    intro c rest depth buf acc h
    have hd : (depth == 0) = false := by simpa using h
    rw [segmentCore]
    simp only [hd, Bool.false_and, Bool.false_eq_true, if_false]
    by_cases h1 : (c == '(') = true <;> by_cases h2 : (c == ')') = true <;>
      simp [h1, h2]
  refine ⟨hstep, ?_, ?_⟩
  · intro cs
    induction cs with
    | nil =>
      intro depth buf acc _ _
      rw [segmentCore, List.append_nil]
    | cons c rest ih =>
      intro depth buf acc hd hnp
      have hc : c ≠ ')' := hnp c (List.mem_cons_self c rest)
      have hcb : (c == ')') = false := by simpa using hc
      rw [hstep c rest depth buf acc hd]
      rw [hcb]
      by_cases h1 : (c == '(') = true
      · rw [if_pos h1]
        have := ih (depth + 1) (buf ++ [c]) acc (by omega)
          (fun x hx => hnp x (List.mem_cons_of_mem c hx))
        rw [this, List.append_assoc]
        rfl
      · rw [if_neg h1]
        simp only [Bool.false_eq_true, if_false]
        have := ih depth (buf ++ [c]) acc hd
          (fun x hx => hnp x (List.mem_cons_of_mem c hx))
        rw [this, List.append_assoc]
        rfl
  · decide

/-! ## Claim C10 -/

/-- Claim C10: `extractTasks` clears the task list before the request, so
on any failed request it returns false, leaves a non-empty error message,
and the held task list is empty regardless of what it was before: the
previously extracted tasks are not restored. -/
theorem c10_extract_not_atomic_on_failure (st : ExtractorState)
    (text : String) (e : AxiosFailure) (h : jsTrim text ≠ "") :
    (extractTasksRun st text (.fail e)).2 = false ∧
    (extractTasksRun st text (.fail e)).1.tasks = [] ∧
    (extractTasksRun st text (.fail e)).1.error ≠ "" := by
  have htr : (jsTrim text == "") = false := by simpa using h
  have hrun : extractTasksRun st text (.fail e) =
      ({ tasks := [], loading := false, error := extractErrorMessage e }, false) := by
    simp [extractTasksRun, htr]
  rw [hrun]
  exact ⟨rfl, rfl, jsOrStr_ne_empty _ _ (jsOrStr_ne_empty _ _ (by decide))⟩

/-- Claim C10, witness: a concrete failing request against a state holding
a previously extracted task. -/
theorem c10_extract_not_atomic_on_failure_witness :
    (extractTasksRun ⟨[c10Task], false, ""⟩ "hello"
      (.fail ⟨none, ""⟩)).2 = false ∧
    (extractTasksRun ⟨[c10Task], false, ""⟩ "hello"
      (.fail ⟨none, ""⟩)).1.tasks = [] ∧
    (extractTasksRun ⟨[c10Task], false, ""⟩ "hello"
      (.fail ⟨none, ""⟩)).1.error ≠ "" :=
  c10_extract_not_atomic_on_failure ⟨[c10Task], false, ""⟩ "hello"
    ⟨none, ""⟩ (by decide)

end FlowPilot
